import Mathlib

/-!
Verification of the CSV schema-normalization tool `qs.py`.

The Python source is shallowly embedded: the CSV file on disk is a header
plus a list of positional data rows; `csv.DictReader` / `csv.DictWriter`
become explicit association-list operations; the interactive helper
functions become functions over a finite stream of typed-in responses.
Headers are assumed duplicate-free, as the data model requires of a
well-formed prior run.
-/

namespace QS

def SKIP_STRING : String := "skip"

/-- A CSV file on disk: the header line plus the positional data rows. -/
structure CsvFile where
  header : List String
  rows : List (List String)
deriving DecidableEq, Repr

/-- `NormalizationResults` from the source. The Python `filler` field is a
`dict` in which every value is `None`; it is embedded as the list of its
keys, each implicitly mapped to the null filler. -/
structure NormalizationResults where
  fieldnames : List String
  filler : List String
deriving DecidableEq, Repr

/-- Python set difference `set xs - set ys` of two schemas, realised as the
duplicate-free list of members of `xs` absent from `ys`. Only membership in
this set is ever consumed by the program. -/
def setDiff (xs ys : List String) : List String :=
  (xs.filter fun x => decide (x ∉ ys)).dedup

/-- The dict produced by `csv.DictReader` for one data row: the header
zipped with the row's cells. -/
def readDict (header row : List String) : List (String × Option String) :=
  header.zip (row.map some)

/-- Lookup in an embedded Python dict. -/
def dictGet (d : List (String × Option String)) (k : String) : Option (Option String) :=
  match d with
  | [] => none
  | (a, v) :: rest => if k = a then some v else dictGet rest k

/-- The cell `csv.DictWriter.writerow` emits for field `f` from the merged
dict of `base` overridden by a dict mapping each of `noneKeys` to `None`.
`None` values and the writer's restval both render as the empty field. -/
def writeCell (base : List (String × Option String)) (noneKeys : List String)
    (f : String) : String :=
  if f ∈ noneKeys then ""
  else
    match dictGet base f with
    | some (some s) => s
    | some none => ""
    | none => ""

/-- One line written by `csv.DictWriter.writerow` under `fieldnames`. -/
def writeRow (fieldnames : List String) (base : List (String × Option String))
    (noneKeys : List String) : List String :=
  fieldnames.map (writeCell base noneKeys)

/-- Line 306-310 of the source: the existing fieldnames in their original
order, then the desired fieldnames that are in `new_only`, in desired
order. -/
def combinedFieldnames (existing fieldnames : List String) : List String :=
  existing ++ fieldnames.filter fun x => decide (x ∈ setDiff fieldnames existing)

/-- Lines 320-325: every data row of `f` re-written under the `combined`
header, with each field of `newFiller` merged in as `None`. -/
def rewriteRows (f : CsvFile) (combined newFiller : List String) : List (List String) :=
  f.rows.map fun r => writeRow combined (readDict f.header r) newFiller

/-- The four ways `normalize_csv` can end: the file did not exist, the fast
path (no structural change), the user declined, or the file was rewritten
to `newFile`. -/
inductive NormOutcome where
  | noFile (res : NormalizationResults)
  | fastPath (res : NormalizationResults)
  | declined
  | rewrote (res : NormalizationResults) (newFile : CsvFile)
deriving DecidableEq, Repr

/-- Whether the run ended through the no-structural-change fast path. -/
def NormOutcome.tookFastPath : NormOutcome → Bool
  | .fastPath _ => true
  | _ => false

/-- Shallow embedding of `normalize_csv`. `file` is the state of the file
at `csv_path`; `decline` records whether the interactive `ask_yn` at line
301 answered `"n"`. -/
def normalize_csv : Option CsvFile → List String → Bool → Bool → NormOutcome
  | none, fieldnames, _, _ => NormOutcome.noFile ⟨fieldnames, []⟩
  | some f, fieldnames, prompt, decline =>
    if (setDiff fieldnames f.header).length + (setDiff f.header fieldnames).length = 0 then
      NormOutcome.fastPath ⟨fieldnames, []⟩
    else if prompt && decline then
      NormOutcome.declined
    else if (setDiff f.header fieldnames).length > 0 then
      NormOutcome.rewrote
        ⟨combinedFieldnames f.header fieldnames, setDiff f.header fieldnames⟩
        ⟨combinedFieldnames f.header fieldnames,
          rewriteRows f (combinedFieldnames f.header fieldnames) (setDiff fieldnames f.header)⟩
    else
      NormOutcome.rewrote
        ⟨combinedFieldnames f.header fieldnames, []⟩
        ⟨combinedFieldnames f.header fieldnames,
          rewriteRows f (combinedFieldnames f.header fieldnames) (setDiff fieldnames f.header)⟩

/-- The state of the file at `csv_path` after `normalize_csv` completes:
only the rewrite branch replaces it. -/
def normalizeFile (file : Option CsvFile) (fieldnames : List String)
    (prompt : Bool) (decline : Bool) : Option CsvFile :=
  match normalize_csv file fieldnames prompt decline with
  | .rewrote _ nf => some nf
  | _ => file

/-- The `NormalizationResults` value returned to the caller, `none` on
decline. -/
def normalizeResult (file : Option CsvFile) (fieldnames : List String)
    (prompt : Bool) (decline : Bool) : Option NormalizationResults :=
  match normalize_csv file fieldnames prompt decline with
  | .noFile r => some r
  | .fastPath r => some r
  | .declined => none
  | .rewrote r _ => some r

/-- Lines 485-496 of `main`: create the file with the normalized header if
it is absent, then append one response row written by `csv.DictWriter`
under `res.fieldnames` from the merged dict of the responses overridden by
the filler. -/
def appendResponses (file : Option CsvFile) (res : NormalizationResults)
    (responses : List (String × Option String)) : CsvFile :=
  match file with
  | none => ⟨res.fieldnames, [writeRow res.fieldnames responses res.filler]⟩
  | some f => ⟨f.header, f.rows ++ [writeRow res.fieldnames responses res.filler]⟩

/-- The file-state effect of `main`: run `normalize_csv` with `prompt=True`;
if it returned nothing (user declined), return at once without writing any
response row; otherwise append one row per collected response list using
the returned fieldnames and filler. -/
def main_run (file : Option CsvFile) (fieldnames : List String) (decline : Bool)
    (sessions : List (List (String × Option String))) : Option CsvFile :=
  match normalizeResult file fieldnames true decline with
  | none => normalizeFile file fieldnames true decline
  | some res =>
    sessions.foldl (fun st responses => some (appendResponses st res responses))
      (normalizeFile file fieldnames true decline)

/-- A snapshot of the two paths touched by the rewrite: the canonical
`csv_path` and the sibling `csv_path + ".temp"`. -/
structure FsState where
  canonical : Option CsvFile
  temp : Option (List (List String))
deriving DecidableEq, Repr

/-- The filesystem history of the rewrite at lines 320-327: the temp file
is opened and truncated, the merged header is written, each re-written row
is appended to the temp file, and finally `os.rename` moves the temp file
over the canonical path. The canonical file is untouched until that final
rename. -/
def rewriteTrace (f : CsvFile) (fieldnames : List String) : List FsState :=
  let combined := combinedFieldnames f.header fieldnames
  let rows := rewriteRows f combined (setDiff fieldnames f.header)
  ⟨some f, some []⟩ ::
    (((List.range (rows.length + 1)).map fun k =>
        ⟨some f, some (combined :: rows.take k)⟩) ++
      [⟨some ⟨combined, rows⟩, none⟩])

/-- Shallow embedding of `ask_type` over a finite stream of responses.
`parse` embeds `type_` (`none` = `ValueError`); an exhausted stream yields
`none`. The source's `except ValueError` branch calls `ask_type`
recursively but lacks a `return`, so the recursive value is discarded and
the call falls off the end, returning `None`; the embedding reproduces
that. -/
def ask_type_run {α : Type} (parse : String → Option α) (skippable : Bool) :
    List String → Option α
  | [] => none
  | r :: rest =>
    if skippable ∧ r = SKIP_STRING then none
    else
      match parse r with
      | some v => some v
      | none =>
        let _ := ask_type_run parse skippable rest
        none

/-- Shallow embedding of `ask_yn` over a finite stream of responses.
`none` means the stream ran out, `some none` an explicit skip. A falsy
(absent or empty) default is `none`; the `ValueError` raised for a default
outside "yn" is not modelled, so theorems only instantiate valid defaults.
The re-prompting recursive call at line 168 passes only `prompt` and
`skippable`, dropping `default`; the embedding reproduces that. -/
def ask_yn_run (default : Option String) (skippable : Bool) :
    List String → Option (Option String)
  | [] => none
  | r :: rest =>
    if skippable ∧ r = SKIP_STRING then some none
    else if r = "y" then some (some "y")
    else if r = "n" then some (some "n")
    else if default.isSome ∧ r = "" then some default
    else ask_yn_run none skippable rest

/-- Shallow embedding of `ask_duration_seconds` over a finite stream of
responses. `timeparse` embeds `pytimeparse.timeparse.timeparse` (`none` =
unparseable). The source tests the parsed duration with `if duration:`,
so a parsed `0` is falsy and re-prompts exactly like a parse failure. -/
def ask_duration_run (timeparse : String → Option Int) (skippable : Bool) :
    List String → Option (Option Int)
  | [] => none
  | r :: rest =>
    if skippable ∧ r = SKIP_STRING then some none
    else
      match timeparse r with
      | some d => if d ≠ 0 then some (some d) else ask_duration_run timeparse skippable rest
      | none => ask_duration_run timeparse skippable rest

/-- Python `int(s)` on the strings exercised here: "5" parses to 5 and
"abc" raises `ValueError`. -/
def pyInt (s : String) : Option Int :=
  if s = "5" then some 5 else none

section SetDiffLemmas

theorem mem_setDiff {x : String} {xs ys : List String} :
    x ∈ setDiff xs ys ↔ x ∈ xs ∧ x ∉ ys := by
  simp [setDiff, List.mem_dedup, List.mem_filter]

theorem setDiff_eq_nil_iff {xs ys : List String} :
    setDiff xs ys = [] ↔ ∀ x ∈ xs, x ∈ ys := by
  constructor
  · intro h x hx
    by_contra hnot
    have : x ∈ setDiff xs ys := mem_setDiff.mpr ⟨hx, hnot⟩
    simp [h] at this
  · intro h
    have : ∀ x ∈ setDiff xs ys, False := by
      intro x hx
      rcases mem_setDiff.mp hx with ⟨h1, h2⟩
      exact h2 (h x h1)
    cases hd : setDiff xs ys with
    | nil => rfl
    | cons a l =>
      exact absurd (this a (by simp [hd])) not_false

theorem combined_eq_append_filter (existing fieldnames : List String) :
    combinedFieldnames existing fieldnames =
      existing ++ fieldnames.filter fun x => decide (x ∉ existing) := by
  unfold combinedFieldnames
  congr 1
  apply List.filter_congr
  intro a ha
  simp [mem_setDiff, ha]

theorem mem_combined {x : String} {existing fieldnames : List String} :
    x ∈ combinedFieldnames existing fieldnames ↔ x ∈ existing ∨ x ∈ fieldnames := by
  rw [combined_eq_append_filter]
  simp [List.mem_append, List.mem_filter]
  constructor
  · rintro (h | ⟨h1, h2⟩)
    · exact Or.inl h
    · exact Or.inr h1
  · rintro (h | h)
    · exact Or.inl h
    · by_cases he : x ∈ existing
      · exact Or.inl he
      · exact Or.inr ⟨h, he⟩

end SetDiffLemmas

section RowLemmas

theorem writeCell_eq_empty_of_mem (base : List (String × Option String))
    (ks : List String) {x : String} (hx : x ∈ ks) : writeCell base ks x = "" := by
  simp [writeCell, hx]

theorem writeCell_cons_ne (a : String) (v : Option String)
    (base : List (String × Option String)) (ks : List String) {x : String}
    (h : x ≠ a) : writeCell ((a, v) :: base) ks x = writeCell base ks x := by
  simp [writeCell, dictGet, h]

theorem map_writeCell_readDict (ks : List String) (E : List String) :
    ∀ r : List String, E.Nodup → r.length = E.length → (∀ x ∈ E, x ∉ ks) →
      E.map (writeCell (readDict E r) ks) = r := by
  induction E with
  | nil =>
    intro r _ hlen _
    simpa using (List.length_eq_zero.mp (by simpa using hlen)).symm
  | cons e E ih =>
    intro r hnodup hlen hks
    cases r with
    | nil => simp at hlen
    | cons c r =>
      have hnd1 : e ∉ E := (List.nodup_cons.mp hnodup).1
      have hnd2 : E.Nodup := (List.nodup_cons.mp hnodup).2
      have hlen2 : r.length = E.length := by simpa using hlen
      have heks : e ∉ ks := hks e (by simp)
      have hks2 : ∀ x ∈ E, x ∉ ks := fun x hx => hks x (by simp [hx])
      simp only [readDict, List.map_cons, List.zip_cons_cons]
      have hhead : writeCell ((e, some c) :: E.zip (r.map some)) ks e = c := by
        simp [writeCell, dictGet, heks]
      have htail : E.map (writeCell ((e, some c) :: E.zip (r.map some)) ks) =
          E.map (writeCell (E.zip (r.map some)) ks) := by
        apply List.map_congr_left
        intro x hx
        exact writeCell_cons_ne e (some c) _ ks (fun hxe => hnd1 (hxe ▸ hx))
      rw [hhead, htail]
      have := ih r hnd2 hlen2 hks2
      simp only [readDict] at this
      rw [this]

theorem map_writeCell_replicate (base : List (String × Option String))
    (ks l : List String) (h : ∀ x ∈ l, x ∈ ks) :
    l.map (writeCell base ks) = List.replicate l.length "" := by
  induction l with
  | nil => rfl
  | cons a l ih =>
    simp only [List.map_cons, List.length_cons, List.replicate_succ]
    rw [writeCell_eq_empty_of_mem base ks (h a (by simp)),
      ih (fun x hx => h x (by simp [hx]))]

theorem writeRow_append_rewrite (E added r ks : List String)
    (hnodup : E.Nodup) (hlen : r.length = E.length)
    (hE : ∀ x ∈ E, x ∉ ks) (hA : ∀ x ∈ added, x ∈ ks) :
    writeRow (E ++ added) (readDict E r) ks = r ++ List.replicate added.length "" := by
  unfold writeRow
  rw [List.map_append, map_writeCell_readDict ks E r hnodup hlen hE,
    map_writeCell_replicate _ ks added hA]

end RowLemmas

section BranchLemmas

theorem normalize_fast_path_eq (f : CsvFile) (D : List String) (p dec : Bool)
    (h1 : ∀ x ∈ D, x ∈ f.header) (h2 : ∀ x ∈ f.header, x ∈ D) :
    normalize_csv (some f) D p dec = NormOutcome.fastPath ⟨D, []⟩ := by
  simp only [normalize_csv]
  rw [setDiff_eq_nil_iff.mpr h1, setDiff_eq_nil_iff.mpr h2]
  simp

theorem normalize_rewrote_eq (f : CsvFile) (D : List String) (p dec : Bool)
    (hchange : ¬((setDiff D f.header).length + (setDiff f.header D).length = 0))
    (hgo : ¬(p = true ∧ dec = true)) :
    normalize_csv (some f) D p dec =
      NormOutcome.rewrote
        ⟨combinedFieldnames f.header D,
          if (setDiff f.header D).length > 0 then setDiff f.header D else []⟩
        ⟨combinedFieldnames f.header D,
          rewriteRows f (combinedFieldnames f.header D) (setDiff D f.header)⟩ := by
  have hpd : (p && dec) = false := by
    cases p <;> cases dec <;> simp_all
  simp only [normalize_csv]
  rw [if_neg hchange, hpd]
  simp only [Bool.false_eq_true, if_false]
  split <;> rfl

theorem normalize_declined_eq (f : CsvFile) (D : List String)
    (hchange : ¬((setDiff D f.header).length + (setDiff f.header D).length = 0)) :
    normalize_csv (some f) D true true = NormOutcome.declined := by
  simp only [normalize_csv]
  rw [if_neg hchange]
  simp

end BranchLemmas

/-- C1: when a file exists with header E and at least one desired field is
absent from E, and normalization proceeds, `normalize_csv` rewrites and
returns a fieldnames list equal to E in its original order followed by
exactly the desired fields absent from E, in the relative order they
appear in the desired list. -/
theorem normalize_merged_schema_order
    (f : CsvFile) (D : List String) (prompt decline : Bool)
    (hnew : ∃ x ∈ D, x ∉ f.header)
    (hgo : ¬(prompt = true ∧ decline = true)) :
    ∃ res nf, normalize_csv (some f) D prompt decline = NormOutcome.rewrote res nf ∧
      res.fieldnames = f.header ++ D.filter fun x => decide (x ∉ f.header) := by
  obtain ⟨x, hxD, hxE⟩ := hnew
  have hne : setDiff D f.header ≠ [] := by
    intro hnil
    exact absurd (setDiff_eq_nil_iff.mp hnil x hxD) hxE
  have hchange : ¬((setDiff D f.header).length + (setDiff f.header D).length = 0) := by
    intro h0
    have hz : (setDiff D f.header).length = 0 := by omega
    exact hne (List.length_eq_zero.mp hz)
  exact ⟨_, _, normalize_rewrote_eq f D prompt decline hchange hgo,
    combined_eq_append_filter f.header D⟩

theorem normalize_merged_schema_order_witness :
    ∃ res nf,
      normalize_csv (some ⟨["date"], []⟩) ["date", "mood"] false false =
        NormOutcome.rewrote res nf ∧
      res.fieldnames =
        ["date"] ++ (["date", "mood"].filter fun x =>
          decide (x ∉ (["date"] : List String))) :=
  normalize_merged_schema_order ⟨["date"], []⟩ ["date", "mood"] false false
    ⟨"mood", by decide, by decide⟩ (by decide)

/-- C2 as stated fails: with existing header ["a", "b"] and desired
["b", "a"] (equal as sets), the fast path returns a Schema equal to the
desired list ["b", "a"], not the existing header ["a", "b"]. -/
theorem normalize_set_equal_counterexample :
    normalizeResult (some ⟨["a", "b"], []⟩) ["b", "a"] false false =
      some ⟨["b", "a"], []⟩ ∧
    normalizeResult (some ⟨["a", "b"], []⟩) ["b", "a"] false false ≠
      some ⟨["a", "b"], []⟩ := by
  constructor
  · rfl
  · decide

/-- C2 amended: when the existing and desired schemas are equal as sets,
`normalize_csv` takes the fast path, returning a Schema equal to the
desired list D (equal to E as a set) with an empty FillerMap, and the file
is not written. -/
theorem normalize_set_equal_fast_path
    (f : CsvFile) (D : List String) (prompt decline : Bool)
    (h1 : ∀ x ∈ D, x ∈ f.header) (h2 : ∀ x ∈ f.header, x ∈ D) :
    normalize_csv (some f) D prompt decline = NormOutcome.fastPath ⟨D, []⟩ ∧
    normalizeFile (some f) D prompt decline = some f := by
  have h := normalize_fast_path_eq f D prompt decline h1 h2
  exact ⟨h, by simp [normalizeFile, h]⟩

theorem normalize_set_equal_fast_path_witness :
    normalize_csv (some ⟨["a", "b"], []⟩) ["b", "a"] false false =
      NormOutcome.fastPath ⟨["b", "a"], []⟩ ∧
    normalizeFile (some ⟨["a", "b"], []⟩) ["b", "a"] false false =
      some ⟨["a", "b"], []⟩ :=
  normalize_set_equal_fast_path ⟨["a", "b"], []⟩ ["b", "a"] false false
    (by decide) (by decide)

/-- C3 as stated fails: with existing header ["a", "b"] and desired ["a"],
the first normalization preserves the removed field and leaves the file
contents unchanged, so the second call with the same desired list faces
the same discrepancy again: it does not take the fast path but reports,
prompts, and rewrites once more. -/
theorem normalize_idempotent_counterexample :
    normalizeFile (some ⟨["a", "b"], []⟩) ["a"] false false =
      some ⟨["a", "b"], []⟩ ∧
    (normalize_csv (some ⟨["a", "b"], []⟩) ["a"] false false).tookFastPath = false := by
  constructor
  · rfl
  · rfl

/-- C3 amended: when every existing field is still desired (no removed
fields), normalizing twice with the same desired list is idempotent: the
second call takes the fast path, performs no rewrite, and leaves the file
contents identical. (With removed fields, the file contents still end up
identical, but every later call re-reports the discrepancy and rewrites.) -/
theorem normalize_idempotent_no_removals
    (f : CsvFile) (D : List String) (prompt decline : Bool)
    (hsub : ∀ x ∈ f.header, x ∈ D)
    (hgo : ¬(prompt = true ∧ decline = true)) :
    ∃ f1, normalizeFile (some f) D prompt decline = some f1 ∧
      normalize_csv (some f1) D prompt decline = NormOutcome.fastPath ⟨D, []⟩ ∧
      normalizeFile (some f1) D prompt decline = some f1 := by
  by_cases hnew : setDiff D f.header = []
  · have h1 : ∀ x ∈ D, x ∈ f.header := setDiff_eq_nil_iff.mp hnew
    have hfast := normalize_fast_path_eq f D prompt decline h1 hsub
    exact ⟨f, by simp [normalizeFile, hfast], hfast, by simp [normalizeFile, hfast]⟩
  · have hchange : ¬((setDiff D f.header).length + (setDiff f.header D).length = 0) := by
      intro h0
      have hz : (setDiff D f.header).length = 0 := by omega
      exact hnew (List.length_eq_zero.mp hz)
    have h := normalize_rewrote_eq f D prompt decline hchange hgo
    refine ⟨⟨combinedFieldnames f.header D,
      rewriteRows f (combinedFieldnames f.header D) (setDiff D f.header)⟩,
      by simp [normalizeFile, h], ?_, ?_⟩
    · have h1 : ∀ x ∈ D, x ∈ combinedFieldnames f.header D := fun x hx =>
        mem_combined.mpr (Or.inr hx)
      have h2 : ∀ x ∈ combinedFieldnames f.header D, x ∈ D := by
        intro x hx
        rcases mem_combined.mp hx with hE | hD
        · exact hsub x hE
        · exact hD
      exact normalize_fast_path_eq _ D prompt decline h1 h2
    · have h1 : ∀ x ∈ D, x ∈ combinedFieldnames f.header D := fun x hx =>
        mem_combined.mpr (Or.inr hx)
      have h2 : ∀ x ∈ combinedFieldnames f.header D, x ∈ D := by
        intro x hx
        rcases mem_combined.mp hx with hE | hD
        · exact hsub x hE
        · exact hD
      have hfast := normalize_fast_path_eq
        (⟨combinedFieldnames f.header D,
          rewriteRows f (combinedFieldnames f.header D) (setDiff D f.header)⟩ : CsvFile)
        D prompt decline h1 h2
      simp [normalizeFile, hfast]

theorem combined_eq_self_of_sub {E D : List String} (hsub : ∀ x ∈ D, x ∈ E) :
    combinedFieldnames E D = E := by
  rw [combined_eq_append_filter]
  have hnil : (D.filter fun x => decide (x ∉ E)) = [] := by
    induction D with
    | nil => rfl
    | cons a D ih =>
      have ha : a ∈ E := hsub a (by simp)
      simp only [List.filter_cons]
      rw [if_neg (by simp [ha])]
      exact ih fun x hx => hsub x (by simp [hx])
  rw [hnil, List.append_nil]

theorem normalize_rewrote_inv
    (f : CsvFile) (D : List String) (prompt decline : Bool)
    (res : NormalizationResults) (nf : CsvFile)
    (h : normalize_csv (some f) D prompt decline = NormOutcome.rewrote res nf) :
    nf = ⟨combinedFieldnames f.header D,
      rewriteRows f (combinedFieldnames f.header D) (setDiff D f.header)⟩ := by
  by_cases hchange : (setDiff D f.header).length + (setDiff f.header D).length = 0
  · have h1 : setDiff D f.header = [] :=
      List.length_eq_zero.mp (by omega)
    have h2 : setDiff f.header D = [] :=
      List.length_eq_zero.mp (by omega)
    rw [normalize_fast_path_eq f D prompt decline
      (setDiff_eq_nil_iff.mp h1) (setDiff_eq_nil_iff.mp h2)] at h
    exact absurd h (by simp)
  · by_cases hpd : prompt = true ∧ decline = true
    · obtain ⟨hp, hd⟩ := hpd
      subst hp
      subst hd
      rw [normalize_declined_eq f D hchange] at h
      exact absurd h (by simp)
    · rw [normalize_rewrote_eq f D prompt decline hchange hpd] at h
      have := (NormOutcome.rewrote.injEq _ _ _ _).mp h
      exact this.2.symm

theorem normalize_idempotent_no_removals_witness :
    ∃ f1, normalizeFile (some ⟨["a"], []⟩) ["a", "b"] false false = some f1 ∧
      normalize_csv (some f1) ["a", "b"] false false =
        NormOutcome.fastPath ⟨["a", "b"], []⟩ ∧
      normalizeFile (some f1) ["a", "b"] false false = some f1 :=
  normalize_idempotent_no_removals ⟨["a"], []⟩ ["a", "b"] false false
    (by decide) (by decide)

/-- C4: pure removals: when every desired field already exists and some
existing field is no longer desired, `normalize_csv` returns the existing
header unchanged as the Schema and a FillerMap holding exactly the fields
of E minus D (each mapped to the null filler), and any row appended
afterwards in the same run carries the empty filler value in each of those
fields. -/
theorem normalize_pure_removals
    (f : CsvFile) (D : List String) (prompt decline : Bool)
    (hsub : ∀ x ∈ D, x ∈ f.header)
    (hrem : ∃ x ∈ f.header, x ∉ D)
    (hgo : ¬(prompt = true ∧ decline = true)) :
    ∃ res nf, normalize_csv (some f) D prompt decline = NormOutcome.rewrote res nf ∧
      res.fieldnames = f.header ∧
      (∀ x, x ∈ res.filler ↔ x ∈ f.header ∧ x ∉ D) ∧
      (∀ st responses, (appendResponses st res responses).rows.getLast? =
        some (writeRow res.fieldnames responses res.filler)) ∧
      (∀ responses x, x ∈ f.header → x ∉ D →
        writeCell responses res.filler x = "") := by
  obtain ⟨x, hxE, hxD⟩ := hrem
  have hold : setDiff f.header D ≠ [] := by
    intro hnil
    exact absurd (setDiff_eq_nil_iff.mp hnil x hxE) hxD
  have hchange : ¬((setDiff D f.header).length + (setDiff f.header D).length = 0) := by
    intro h0
    have hz : (setDiff f.header D).length = 0 := by omega
    exact hold (List.length_eq_zero.mp hz)
  have hpos : (setDiff f.header D).length > 0 := List.length_pos.mpr hold
  have h := normalize_rewrote_eq f D prompt decline hchange hgo
  rw [if_pos hpos] at h
  refine ⟨_, _, h, combined_eq_self_of_sub hsub, ?_, ?_, ?_⟩
  · intro y
    exact mem_setDiff
  · intro st responses
    cases st with
    | none => rfl
    | some f2 => simp [appendResponses]
  · intro responses y hyE hyD
    exact writeCell_eq_empty_of_mem responses _ (mem_setDiff.mpr ⟨hyE, hyD⟩)

theorem normalize_pure_removals_witness :
    ∃ res nf, normalize_csv (some ⟨["a", "b"], []⟩) ["a"] false false =
        NormOutcome.rewrote res nf ∧
      res.fieldnames = ["a", "b"] ∧
      (∀ x, x ∈ res.filler ↔ x ∈ (["a", "b"] : List String) ∧ x ∉ (["a"] : List String)) ∧
      (∀ st responses, (appendResponses st res responses).rows.getLast? =
        some (writeRow res.fieldnames responses res.filler)) ∧
      (∀ responses x, x ∈ (["a", "b"] : List String) → x ∉ (["a"] : List String) →
        writeCell responses res.filler x = "") :=
  normalize_pure_removals ⟨["a", "b"], []⟩ ["a"] false false
    (by decide) ⟨"b", by decide, by decide⟩ (by decide)

/-- C5: the rewrite writes only to the sibling temp file: at every
filesystem state of the rewrite before the final rename step, the file at
the canonical path is exactly its pre-normalization content, and the
rename at the last step installs exactly the rewritten file that
`normalize_csv` reports. -/
theorem rewrite_atomic
    (f : CsvFile) (D : List String) (prompt decline : Bool)
    (res : NormalizationResults) (nf : CsvFile)
    (h : normalize_csv (some f) D prompt decline = NormOutcome.rewrote res nf) :
    (∀ s ∈ (rewriteTrace f D).dropLast, s.canonical = some f) ∧
    (rewriteTrace f D).getLast? = some ⟨some nf, none⟩ := by
  have hnf := normalize_rewrote_inv f D prompt decline res nf h
  subst hnf
  simp only [rewriteTrace]
  rw [← List.cons_append]
  constructor
  · intro s hs
    rw [List.dropLast_concat] at hs
    rcases List.mem_cons.mp hs with hs | hs
    · rw [hs]
    · rcases List.mem_map.mp hs with ⟨k, _, hk⟩
      rw [← hk]
  · rw [List.getLast?_concat]

theorem rewrite_atomic_witness :
    (∀ s ∈ (rewriteTrace ⟨["a"], [["1"]]⟩ ["a", "b"]).dropLast,
      s.canonical = some ⟨["a"], [["1"]]⟩) ∧
    (rewriteTrace ⟨["a"], [["1"]]⟩ ["a", "b"]).getLast? =
      some ⟨some ⟨["a", "b"], [["1", ""]]⟩, none⟩ :=
  rewrite_atomic ⟨["a"], [["1"]]⟩ ["a", "b"] false false
    ⟨["a", "b"], []⟩ ⟨["a", "b"], [["1", ""]]⟩ rfl

/-- C6: when a structural change is detected, the prompt flag is set and
the user declines, `normalize_csv` returns the declined outcome (no
`NormalizationResults`) with the file unmutated, and `main` then aborts
the whole run without writing any response row. -/
theorem decline_aborts_run
    (f : CsvFile) (D : List String)
    (sessions : List (List (String × Option String)))
    (hchange : ¬((setDiff D f.header).length + (setDiff f.header D).length = 0)) :
    normalize_csv (some f) D true true = NormOutcome.declined ∧
    normalizeFile (some f) D true true = some f ∧
    main_run (some f) D true sessions = some f := by
  have h := normalize_declined_eq f D hchange
  refine ⟨h, by simp [normalizeFile, h], ?_⟩
  simp [main_run, normalizeResult, normalizeFile, h]

theorem decline_aborts_run_witness :
    normalize_csv (some ⟨["a"], []⟩) ["a", "b"] true true = NormOutcome.declined ∧
    normalizeFile (some ⟨["a"], []⟩) ["a", "b"] true true = some ⟨["a"], []⟩ ∧
    main_run (some ⟨["a"], []⟩) ["a", "b"] true [[("a", some "v")]] =
      some ⟨["a"], []⟩ :=
  decline_aborts_run ⟨["a"], []⟩ ["a", "b"] [[("a", some "v")]] (by decide)

/-- C7: every rewrite maps each pre-existing data row (well-formed, under a
duplicate-free header) to itself followed by one empty cell per added
field, under the merged header. -/
theorem rewrite_preserves_rows
    (f : CsvFile) (D : List String) (prompt decline : Bool)
    (res : NormalizationResults) (nf : CsvFile)
    (hnodup : f.header.Nodup)
    (hwf : ∀ r ∈ f.rows, r.length = f.header.length)
    (h : normalize_csv (some f) D prompt decline = NormOutcome.rewrote res nf) :
    nf.header = f.header ++ (D.filter fun x => decide (x ∉ f.header)) ∧
    nf.rows = f.rows.map fun r =>
      r ++ List.replicate (D.filter fun x => decide (x ∉ f.header)).length "" := by
  have hnf := normalize_rewrote_inv f D prompt decline res nf h
  subst hnf
  refine ⟨combined_eq_append_filter f.header D, ?_⟩
  show rewriteRows f (combinedFieldnames f.header D) (setDiff D f.header) = _
  unfold rewriteRows
  apply List.map_congr_left
  intro r hr
  rw [combined_eq_append_filter]
  apply writeRow_append_rewrite
  · exact hnodup
  · exact hwf r hr
  · intro x hx hmem
    exact (mem_setDiff.mp hmem).2 hx
  · intro x hx
    rcases List.mem_filter.mp hx with ⟨hxD, hdec⟩
    exact mem_setDiff.mpr ⟨hxD, by simpa using hdec⟩

theorem rewrite_preserves_rows_witness :
    (CsvFile.mk ["a", "b"] [["1", ""]]).header =
      ["a"] ++ (["a", "b"].filter fun x => decide (x ∉ (["a"] : List String))) ∧
    (CsvFile.mk ["a", "b"] [["1", ""]]).rows =
      [["1"]].map (fun r => r ++ List.replicate
        (["a", "b"].filter fun x => decide (x ∉ (["a"] : List String))).length "") :=
  rewrite_preserves_rows ⟨["a"], [["1"]]⟩ ["a", "b"] false false
    ⟨["a", "b"], []⟩ ⟨["a", "b"], [["1", ""]]⟩ (by decide) (by decide) rfl

/-- C8 fails on the code: `ask_type`'s except-branch calls itself without
`return`, so with the unparseable response "abc" followed by the valid
response "5" the re-prompted parse succeeds but its value is discarded and
the call returns `None`, although "5" parses to 5 and no skip was
entered. -/
theorem ask_type_discards_reprompted_value :
    ask_type_run pyInt true ["abc", "5"] = none ∧ pyInt "5" = some 5 := by
  constructor
  · rfl
  · rfl

/-- C9 fails on the code: with default "y", an empty first response does
return the default, but the re-prompting recursive call at line 168 drops
`default`, so after the invalid response "x" an empty response is no
longer accepted and a later explicit "n" decides the answer instead of
the configured default "y". -/
theorem ask_yn_default_lost_after_reprompt :
    ask_yn_run (some "y") true [""] = some (some "y") ∧
    ask_yn_run (some "y") true ["x", "", "n"] = some (some "n") := by
  constructor
  · rfl
  · rfl

/-- C10: `ask_duration_seconds` never returns 0: every returned duration
is non-zero, and a response parsing to a zero-second duration is consumed
exactly like an unparseable one, re-prompting on the rest of the input. -/
theorem ask_duration_never_zero :
    (∀ (timeparse : String → Option Int) (sk : Bool) (inputs : List String) (d : Int),
      ask_duration_run timeparse sk inputs = some (some d) → d ≠ 0) ∧
    (∀ (timeparse : String → Option Int) (sk : Bool) (r : String) (rest : List String),
      ¬(sk = true ∧ r = SKIP_STRING) →
      (timeparse r = some 0 ∨ timeparse r = none) →
      ask_duration_run timeparse sk (r :: rest) =
        ask_duration_run timeparse sk rest) := by
  constructor
  · intro tp sk inputs
    induction inputs with
    | nil =>
      intro d h
      simp [ask_duration_run] at h
    | cons r rest ih =>
      intro d h
      simp only [ask_duration_run] at h
      split at h
      · simp at h
      · split at h
        · rename_i d2 hd2
          split at h
          · rename_i hne
            have : d2 = d := by
              simpa using h
            rw [← this]
            exact hne
          · exact ih d h
        · exact ih d h
  · intro tp sk r rest hns hz
    simp only [ask_duration_run]
    rw [if_neg hns]
    rcases hz with h0 | h0
    · rw [h0]
      simp
    · rw [h0]

/-- A concrete fragment of pytimeparse: "0s" parses to zero seconds and
"1m" to sixty. -/
def tpModel (s : String) : Option Int :=
  if s = "0s" then some 0 else if s = "1m" then some 60 else none

theorem ask_duration_never_zero_witness :
    (60 : Int) ≠ 0 ∧
    ask_duration_run tpModel true ["0s", "1m"] =
      ask_duration_run tpModel true ["1m"] :=
  ⟨ask_duration_never_zero.1 tpModel true ["0s", "1m"] 60 (by decide),
    ask_duration_never_zero.2 tpModel true "0s" ["1m"] (by decide)
      (Or.inl (by decide))⟩

end QS
